import Mathlib

/-!
Shallow embedding of `src/pdm/cli/options.py`: a declarative, reusable
specification system for command-line options.

The module defines
  - `Option` (here `CliOption`, since `Option` is taken by the Lean core
    type): a leaf flag specification wrapping `add_argument` arguments,
    doubling as a decorator binding a callback;
  - `CallbackAction`: a parse-time action that records a deferred bound
    invocation on the parse result instead of storing a value;
  - `ArgumentGroup`: a composite of Options / nested Groups, optionally
    rendered as a mutually exclusive scope;
  - `split_lists`: an action factory splitting separator-joined values and
    accumulating the surviving trimmed pieces on the destination;
  - `from_splitted_env`: an environment-sourced default helper.

Python strings are Lean `String`s; string `.strip()` and `.split(sep)` are
embedded on the character list (every call site in the module passes the
one-character separator ","), and `os.environ` is passed explicitly as a
function `String → Option String`.
-/

/-- The callback handlers defined at module level in the source
(`frozen_lockfile_option`, `pep582_option`, `no_isolation_option`,
`ignore_python_option`).  Their bodies are embedded by `runHandler`. -/
inductive Handler where
  | frozenLockfile
  | pep582
  | noIsolation
  | ignorePython
deriving DecidableEq

/-- A Python value as it occurs in this module: strings, lists of strings,
integers, booleans and `None`. -/
inductive Value where
  | str (s : String)
  | list (l : List String)
  | int (n : Int)
  | bool (b : Bool)
  | none
deriving DecidableEq

/-- `isinstance(values, str)`. -/
def Value.isStr : Value → Bool
  | Value.str _ => true
  | _ => false

/-- Python `x or []` evaluated on a destination slot that is then used as a
list (`split.extend(...)` in `split_lists`).  A stored list is kept, and
every falsy value (`None`, the case argparse produces for an unset
destination default) coerces to the empty list.  Truthy non-list values
never reach this point in the source (destinations of `split_lists` actions
hold either a list default or `None`). -/
def Value.pyOrEmptyList : Value → List String
  | Value.list l => l
  | _ => []

/-- The destination values on which `getattr(args, dest) or []` behaves as
`pyOrEmptyList` models it: stored lists and Python-falsy values. -/
def Value.isListOrFalsy : Value → Bool
  | Value.list _ => true
  | Value.none => true
  | Value.str s => s.isEmpty
  | Value.int n => n == 0
  | Value.bool b => !b

/-- The `nargs` registration parameter: a number, `"?"` or `"*"`. -/
inductive Nargs where
  | exact (n : Nat)
  | optional
  | zeroOrMore
deriving DecidableEq

/-- The `action` registration parameter: argparse's builtin action names and
the two action classes this module supplies (`split_lists(sep)` and
`CallbackAction`). -/
inductive ActionKind where
  | store
  | storeTrue
  | storeFalse
  | storeConst
  | count
  | append
  | appendConst
  | splitList (separator : Char)
  | callbackAction
deriving DecidableEq

/-- The keyword registration parameters (`**kwargs`) this module passes to
`parser.add_argument`.  Absent keywords are `Option.none`. -/
structure Kwargs where
  action : Option ActionKind := Option.none
  callback : Option Handler := Option.none
  dest : Option String := Option.none
  default : Option Value := Option.none
  const : Option Value := Option.none
  nargs : Option Nargs := Option.none
  metavar : Option String := Option.none
  help : Option String := Option.none
deriving DecidableEq

/-- The source's `class Option`: a reusable option object delegating its
stored positional `args` (flag aliases) and keyword `kwargs` to
`parser.add_argument()`. -/
structure CliOption where
  args : List String
  kwargs : Kwargs
deriving DecidableEq

/-- `Option.__call__(self, func)`: the decorator form.  The source runs
`self.kwargs.update(action=CallbackAction, callback=func)` and returns
`self`: the same instance, with only the `action` and `callback` keywords
overwritten. -/
def CliOption.call (o : CliOption) (func : Handler) : CliOption :=
  { o with kwargs :=
      { o.kwargs with action := some ActionKind.callbackAction, callback := some func } }

/-- A deferred invocation: `partial(self.callback, values=values,
option_string=option_string)` as appended by `CallbackAction.__call__`. -/
structure CallbackRecord where
  callback : Handler
  values : Value
  option_string : Option String
deriving DecidableEq

/-- `argparse.Namespace`, the parse result: one slot per destination name
(an association list; a missing key is an attribute argparse has not set)
plus the lazily-attached `callbacks` list (`Option.none` models
`not hasattr(namespace, "callbacks")`). -/
structure Namespace where
  slots : List (String × Value)
  callbacks : Option (List CallbackRecord)
deriving DecidableEq

/-- Association-list lookup backing `getattr`. -/
def getSlot : List (String × Value) → String → Option Value
  | [], _ => Option.none
  | (k, v) :: rest, name => if k = name then some v else getSlot rest name

/-- Association-list update backing `setattr`. -/
def setSlot : List (String × Value) → String → Value → List (String × Value)
  | [], name, v => [(name, v)]
  | (k, w) :: rest, name, v =>
      if k = name then (k, v) :: rest else (k, w) :: setSlot rest name v

/-- `getattr(args, name)`.  argparse presets every destination before
actions run, so an absent attribute reads as the unset default `None`. -/
def Namespace.getattr (ns : Namespace) (name : String) : Value :=
  (getSlot ns.slots name).getD Value.none

/-- `setattr(args, name, v)`. -/
def Namespace.setattr (ns : Namespace) (name : String) (v : Value) : Namespace :=
  { ns with slots := setSlot ns.slots name v }

/-- `CallbackAction.__call__`: lazily initialize `namespace.callbacks` if
absent, then append the partial application of the action's callback to the
just-parsed `values` and the literal matched `option_string`. -/
def CallbackAction.call (callback : Handler) (ns : Namespace) (values : Value)
    (option_string : Option String) : Namespace :=
  let existing := ns.callbacks.getD []
  { ns with callbacks := some (existing ++
      [{ callback := callback, values := values, option_string := option_string }]) }

/-- Python `str.split(sep)` for a one-character separator, on the character
list: never collapses adjacent separators, and the split of the empty
string is `[[]]`. -/
def splitOnChar (sep : Char) : List Char → List (List Char)
  | [] => [[]]
  | c :: rest =>
      let r := splitOnChar sep rest
      if c = sep then [] :: r
      else
        match r with
        | [] => [[c]]
        | g :: gs => (c :: g) :: gs

/-- Python `str.strip()`: drop whitespace from both ends. -/
def pyStrip (l : List Char) : List Char :=
  ((l.dropWhile Char.isWhitespace).reverse.dropWhile Char.isWhitespace).reverse

/-- The comprehension
`[value.strip() for value in values.split(separator) if value.strip()]`:
the ordered whitespace-trimmed, non-empty segments of `values` split on
`separator`. -/
def stripSplit (separator : Char) (values : String) : List String :=
  (splitOnChar separator values.toList).filterMap fun v =>
    let t := pyStrip v
    if t.isEmpty then Option.none else some (String.mk t)

/-- `split_lists(separator)`'s `SplitList.__call__` with destination
`dest` (= `self.dest`): a non-string value is a no-op passthrough;
a string is split, trimmed, filtered and appended to
`getattr(args, self.dest) or []`, and the result stored back. -/
def split_lists (separator : Char) (dest : String) (ns : Namespace) (values : Value) :
    Namespace :=
  match values with
  | Value.str s =>
      let split := (ns.getattr dest).pyOrEmptyList
      ns.setattr dest (Value.list (split ++ stripSplit separator s))
  | _ => ns

/-- `from_splitted_env(name, separator)` with the environment passed
explicitly: `None` when the variable is missing or empty (`if not value`),
otherwise the trimmed non-empty segments, or `None` when none survive
(`... or None`). -/
def from_splitted_env (env : String → Option String) (name : String) (separator : Char) :
    Option (List String) :=
  match env name with
  | Option.none => Option.none
  | some value =>
      if value = "" then Option.none
      else
        match stripSplit separator value with
        | [] => Option.none
        | l => some l

/-- The composite specification tree: a leaf is a `CliOption`; a group node
carries `ArgumentGroup`'s `name`, `is_mutually_exclusive` and `required`
fields and its ordered `options` children (each an Option or a nested
group). -/
inductive ASpec where
  | leaf (o : CliOption)
  | group (name : String) (is_mutually_exclusive : Bool) (required : Bool)
      (options : List ASpec)

/-- What registration leaves inside a grammar-engine container: a single
`add_argument(*args, **kwargs)` call, or a scope returned by
`add_mutually_exclusive_group(required=...)` or `add_argument_group(name)`
together with the entries registered into it, in order. -/
inductive RegEntry where
  | argument (args : List String) (kwargs : Kwargs)
  | mutuallyExclusiveGroup (required : Bool) (entries : List RegEntry)
  | argumentGroup (name : String) (entries : List RegEntry)

mutual

/-- `add_to_group(group)`: a leaf runs `group.add_argument(*args, **kwargs)`;
a group delegates to `add_to_parser` on the containing scope, which creates
its own sub-scope and registers each child into it in insertion order via
the child's `add_to_group`. -/
def ASpec.addToGroup : ASpec → RegEntry
  | ASpec.leaf o => RegEntry.argument o.args o.kwargs
  | ASpec.group n me req opts =>
      if me then RegEntry.mutuallyExclusiveGroup req (ASpec.addAllToGroup opts)
      else RegEntry.argumentGroup n (ASpec.addAllToGroup opts)

/-- The loop `for option in self.options: option.add_to_group(group)`. -/
def ASpec.addAllToGroup : List ASpec → List RegEntry
  | [] => []
  | s :: rest => ASpec.addToGroup s :: ASpec.addAllToGroup rest

end

/-- `add_to_parser(parser)`: a leaf runs `parser.add_argument(...)`; a group
creates `parser.add_mutually_exclusive_group(required=self.required)` when
`is_mutually_exclusive` and the display scope
`parser.add_argument_group(self.name)` otherwise, then registers every
child into that scope in insertion order. -/
def ASpec.addToParser : ASpec → RegEntry
  | ASpec.leaf o => RegEntry.argument o.args o.kwargs
  | ASpec.group n me req opts =>
      if me then RegEntry.mutuallyExclusiveGroup req (ASpec.addAllToGroup opts)
      else RegEntry.argumentGroup n (ASpec.addAllToGroup opts)

/-- The source's `class ArgumentGroup(Option)`: name, ordered children,
`required` and `is_mutually_exclusive`, as set by `__init__`. -/
structure ArgumentGroup where
  name : String
  options : List ASpec
  required : Bool
  is_mutually_exclusive : Bool

/-- An `ArgumentGroup` as a node of the composite tree. -/
def ArgumentGroup.toSpec (g : ArgumentGroup) : ASpec :=
  ASpec.group g.name g.is_mutually_exclusive g.required g.options

/-- One positional argument of `ArgumentGroup.add_argument(*args, ...)`:
either a prebuilt specification object (an `Option` or, since
`ArgumentGroup` subclasses `Option`, a group) or a raw flag string. -/
inductive AddArg where
  | str (s : String)
  | spec (s : ASpec)

/-- The flag strings among raw positional arguments (every non-Option
argument the module ever passes to `add_argument` is a flag string). -/
def argStrings (args : List AddArg) : List String :=
  args.filterMap fun a =>
    match a with
    | AddArg.str s => some s
    | AddArg.spec _ => Option.none

/-- `ArgumentGroup.add_argument`: `if args and isinstance(args[0], Option)`
append `args[0]` as-is (every further argument is ignored), else wrap the
raw arguments into a new `Option(*args, **kwargs)` and append it. -/
def ArgumentGroup.addArgument (g : ArgumentGroup) (args : List AddArg) (kwargs : Kwargs) :
    ArgumentGroup :=
  match args with
  | AddArg.spec s :: _ => { g with options := g.options ++ [s] }
  | _ => { g with options := g.options ++
      [ASpec.leaf { args := argStrings args, kwargs := kwargs }] }

/-- The action the grammar engine invokes for one matched flag: the two
action classes defined in this module, plus the engine's plain
value-storing builtin standing for every other argparse action. -/
inductive ActionSem where
  | callbackAct (h : Handler)
  | splitAct (separator : Char) (dest : String)
  | storeAct (dest : String)

/-- One matched flag during a parse: its action, the just-parsed value and
the literal alias text that was matched. -/
structure ArgMatch where
  action : ActionSem
  values : Value
  option_string : Option String

/-- Dispatch of one match to its action, exactly as the grammar engine
calls `action(parser, namespace, values, option_string)`. -/
def applyMatch (ns : Namespace) (m : ArgMatch) : Namespace :=
  match m.action with
  | ActionSem.callbackAct h => CallbackAction.call h ns m.values m.option_string
  | ActionSem.splitAct sep dest => split_lists sep dest ns m.values
  | ActionSem.storeAct dest => ns.setattr dest m.values

/-- A whole parse: the engine fires the matched flags' actions in argv
order on the parse result. -/
def runParse (ns : Namespace) (ms : List ArgMatch) : Namespace :=
  ms.foldl applyMatch ns

/-- The deferred-invocation records of the callback-bound flags among a
match sequence, in match order. -/
def callbackRecords (ms : List ArgMatch) : List CallbackRecord :=
  ms.filterMap fun m =>
    match m.action with
    | ActionSem.callbackAct h =>
        some { callback := h, values := m.values, option_string := m.option_string }
    | _ => Option.none

/-- An observable side effect of a handler body: the deprecation warning on
the UI sink, flipping the write-lockfile flag on the project, an
environment write, or the emission of the derived shell command.
`printPep582` stands for `print_pep582_command` (imported from
`pdm.cli.actions`, whose code is outside this module): the emission of the
shell command derived from the matched value. -/
inductive Effect where
  | warn (msg : String)
  | setEnableWriteLockfile (b : Bool)
  | setEnv (name val : String)
  | printPep582 (values : Value)
deriving DecidableEq

/-- How a handler body finishes: a normal return, or `sys.exit(code)`, an
irrecoverable process-termination signal. -/
inductive HandlerOutcome where
  | normal
  | exit (code : Nat)
deriving DecidableEq

/-- The four handler bodies, each returning its emitted effects in program
order and its outcome.  `frozen_lockfile_option` warns when the literal
matched alias was `--no-lock`, then disables lockfile writing;
`pep582_option` prints the derived shell command and then runs
`sys.exit(0)`; the other two write one environment variable. -/
def runHandler : Handler → Value → Option String → List Effect × HandlerOutcome
  | Handler.frozenLockfile, _, option_string =>
      ((if option_string = some "--no-lock"
          then [Effect.warn "--no-lock is deprecated, use --frozen-lockfile instead."]
          else []) ++ [Effect.setEnableWriteLockfile false],
       HandlerOutcome.normal)
  | Handler.pep582, values, _ =>
      ([Effect.printPep582 values], HandlerOutcome.exit 0)
  | Handler.noIsolation, _, _ =>
      ([Effect.setEnv "PDM_BUILD_ISOLATION" "no"], HandlerOutcome.normal)
  | Handler.ignorePython, _, _ =>
      ([Effect.setEnv "PDM_IGNORE_SAVED_PYTHON" "1"], HandlerOutcome.normal)

/-- Modelled from the spec: the command driver (an external collaborator,
not part of this module) iterates the deferred-invocation list in order
after parsing and invokes each handler; a process termination raised inside
a handler is immediate and final, so the remaining deferred invocations are
never executed. -/
def runCallbacks : List CallbackRecord → List Effect
  | [] => []
  | r :: rest =>
      match runHandler r.callback r.values r.option_string with
      | (effs, HandlerOutcome.normal) => effs ++ runCallbacks rest
      | (effs, HandlerOutcome.exit _) => effs

/-- The operations the module performs on an `Option` instance after it has
been built (and, for the callback options, decorated): registering it
against a parser or into a group scope.  Both methods only read
`self.args` and `self.kwargs`. -/
inductive OptOp where
  | addToParser
  | addToGroup

/-- One registration operation on an option, in state-passing form: the
(unchanged) instance together with the `add_argument` call it emits into
the target container. -/
def applyOptOp : CliOption × List RegEntry → OptOp → CliOption × List RegEntry
  | (o, out), OptOp.addToParser => (o, out ++ [RegEntry.argument o.args o.kwargs])
  | (o, out), OptOp.addToGroup => (o, out ++ [RegEntry.argument o.args o.kwargs])

/-- The undecorated `Option(...)` of `frozen_lockfile_option`. -/
def frozen_lockfile_base : CliOption :=
  { args := ["--frozen-lockfile", "--no-lock"],
    kwargs :=
      { nargs := some (Nargs.exact 0),
        help := some "Do not try to create or update the lockfile. [env var: PDM_FROZEN_LOCKFILE]" } }

/-- `@Option("--frozen-lockfile", "--no-lock", nargs=0, ...)` applied to
its handler. -/
def frozen_lockfile_option : CliOption :=
  frozen_lockfile_base.call Handler.frozenLockfile

/-- The undecorated `Option("--pep582", const="AUTO", metavar="SHELL",
nargs="?", ...)`. -/
def pep582_base : CliOption :=
  { args := ["--pep582"],
    kwargs :=
      { const := some (Value.str "AUTO"), metavar := some "SHELL",
        nargs := some Nargs.optional,
        help := some "Print the command line to be evaluated by the shell" } }

/-- `@Option("--pep582", ...)` applied to its handler. -/
def pep582_option : CliOption :=
  pep582_base.call Handler.pep582

/-- The undecorated `Option("-I", "--ignore-python", nargs=0, ...)`. -/
def ignore_python_base : CliOption :=
  { args := ["-I", "--ignore-python"],
    kwargs :=
      { nargs := some (Nargs.exact 0),
        help := some "Ignore the Python path saved in .pdm-python. [env var: PDM_IGNORE_SAVED_PYTHON]" } }

/-- `@Option("-I", "--ignore-python", ...)` applied to its handler. -/
def ignore_python_option : CliOption :=
  ignore_python_base.call Handler.ignorePython

/-- The undecorated `Option("--no-isolation", dest="build_isolation",
nargs=0, ...)`. -/
def no_isolation_base : CliOption :=
  { args := ["--no-isolation"],
    kwargs :=
      { dest := some "build_isolation", nargs := some (Nargs.exact 0),
        help := some "Disable isolation when building a source distribution that follows PEP 517" } }

/-- `@Option("--no-isolation", ...)` applied to its handler. -/
def no_isolation_option : CliOption :=
  no_isolation_base.call Handler.noIsolation

/-- `dev_group = ArgumentGroup("dev", is_mutually_exclusive=True)` with its
two children, in insertion order. -/
def dev_group : ArgumentGroup :=
  ((ArgumentGroup.mk "dev" [] false true).addArgument
      [AddArg.str "-d", AddArg.str "--dev"]
      { default := some Value.none, dest := some "dev",
        action := some ActionKind.storeTrue,
        help := some "Select dev dependencies" }).addArgument
    [AddArg.str "--prod", AddArg.str "--production"]
    { dest := some "dev", action := some ActionKind.storeFalse,
      help := some "Unselect dev dependencies" }

/-- `groups_group = ArgumentGroup("Dependencies Selection")` with its three
`add_argument` children followed by `groups_group.options.append(dev_group)`. -/
def groups_group : ArgumentGroup :=
  let g :=
    (((ArgumentGroup.mk "Dependencies Selection" [] false false).addArgument
        [AddArg.str "-G", AddArg.str "--group", AddArg.str "--with"]
        { dest := some "groups", metavar := some "GROUP",
          action := some (ActionKind.splitList ','),
          help := some "Select group of optional-dependencies separated by comma",
          default := some (Value.list []) }).addArgument
      [AddArg.str "--without"]
      { dest := some "excluded_groups", metavar := some "",
        action := some (ActionKind.splitList ','),
        help := some "Exclude groups of optional-dependencies when using :all",
        default := some (Value.list []) }).addArgument
      [AddArg.str "--no-default"]
      { dest := some "default", action := some ActionKind.storeFalse,
        default := some (Value.bool true),
        help := some "Do not include dependencies from the default group" }
  { g with options := g.options ++ [dev_group.toSpec] }

/-! Helper lemmas about slot lookup and update. -/

theorem getSlot_setSlot_self (sl : List (String × Value)) (name : String) (v : Value) :
    getSlot (setSlot sl name v) name = some v := by
  induction sl with
  | nil => simp [getSlot, setSlot]
  | cons kv rest ih =>
      obtain ⟨k, w⟩ := kv
      by_cases h : k = name
      · simp [getSlot, setSlot, h]
      · simp [getSlot, setSlot, h, ih]

theorem getSlot_setSlot_other (sl : List (String × Value)) (name other : String)
    (v : Value) (hne : other ≠ name) :
    getSlot (setSlot sl name v) other = getSlot sl other := by
  induction sl with
  | nil => simp [getSlot, setSlot, Ne.symm hne]
  | cons kv rest ih =>
      obtain ⟨k, w⟩ := kv
      by_cases h : k = name
      · subst h
        simp [getSlot, setSlot, Ne.symm hne]
      · simp [getSlot, setSlot, h, ih]

/-- After a `split_lists` match on a string, the destination holds the
prior sequence followed by the trimmed non-empty segments of the value. -/
theorem split_lists_getattr_dest (separator : Char) (dest : String) (s : String)
    (ns : Namespace) :
    (split_lists separator dest ns (Value.str s)).getattr dest
      = Value.list ((ns.getattr dest).pyOrEmptyList ++ stripSplit separator s) := by
  simp [split_lists, Namespace.getattr, Namespace.setattr, getSlot_setSlot_self]

/-- One `CallbackAction` firing contributes its single record, and no other
action touches the callbacks list. -/
theorem applyMatch_callbacks_getD (ns : Namespace) (m : ArgMatch) :
    (applyMatch ns m).callbacks.getD [] = ns.callbacks.getD [] ++ callbackRecords [m] := by
  obtain ⟨act, values, ostr⟩ := m
  cases act with
  | callbackAct h => simp [applyMatch, CallbackAction.call, callbackRecords]
  | splitAct sep dest =>
      cases values <;> simp [applyMatch, split_lists, callbackRecords, Namespace.setattr]
  | storeAct dest => simp [applyMatch, Namespace.setattr, callbackRecords]

theorem callbackRecords_cons (m : ArgMatch) (ms : List ArgMatch) :
    callbackRecords (m :: ms) = callbackRecords [m] ++ callbackRecords ms := by
  obtain ⟨act, values, ostr⟩ := m
  cases act <;> simp [callbackRecords]

/-- Claim C1: within one parse, each firing of a `CallbackAction` appends
exactly one deferred-invocation record to the end of the parse result's
callbacks list, so after parsing the list holds the deferred invocations in
exactly the order the flags were matched in argv (the parse is a function
of the match sequence alone, so the catalog's declaration order cannot
influence it); in particular matching `--frozen-lockfile` then `-I` records
their invocations in that order. -/
theorem callback_action_preserves_argv_order :
    (∀ (ns : Namespace) (ms : List ArgMatch),
        (runParse ns ms).callbacks.getD [] = ns.callbacks.getD [] ++ callbackRecords ms)
    ∧ (runParse { slots := [], callbacks := Option.none }
        [{ action := ActionSem.callbackAct Handler.frozenLockfile, values := Value.list [],
           option_string := some "--frozen-lockfile" },
         { action := ActionSem.callbackAct Handler.ignorePython, values := Value.list [],
           option_string := some "-I" }]).callbacks
      = some
          [{ callback := Handler.frozenLockfile, values := Value.list [],
             option_string := some "--frozen-lockfile" },
           { callback := Handler.ignorePython, values := Value.list [],
             option_string := some "-I" }] := by
  constructor
  · intro ns ms
    induction ms generalizing ns with
    | nil => simp [runParse, callbackRecords]
    | cons m ms ih =>
        have hstep : runParse ns (m :: ms) = runParse (applyMatch ns m) ms := rfl
        rw [hstep, ih (applyMatch ns m), applyMatch_callbacks_getD, callbackRecords_cons m ms,
          List.append_assoc]
  · rfl

/-- Claim C2: one invocation of the split-accumulate action on a string
value sets the destination to the prior sequence (the empty sequence when
the destination is unset) followed by the in-order, whitespace-trimmed,
non-empty segments of the value split on the separator; it leaves every
other slot and the callbacks list unchanged; two invocations concatenate;
and splitting `"a, b ,,c"` on `","` into an empty destination yields
`["a", "b", "c"]`.  The hypothesis records the fidelity domain of the
Python expression `getattr(args, self.dest) or []`: the destination holds a
list or a falsy value (the only values argparse-preset defaults produce
for these destinations). -/
theorem split_lists_appends_trimmed_segments (separator : Char) (dest : String)
    (s : String) (ns : Namespace)
    (_hprior : (ns.getattr dest).isListOrFalsy = true) :
    (split_lists separator dest ns (Value.str s)).getattr dest
        = Value.list ((ns.getattr dest).pyOrEmptyList ++ stripSplit separator s)
    ∧ (∀ other : String, other ≠ dest →
        (split_lists separator dest ns (Value.str s)).getattr other = ns.getattr other)
    ∧ (split_lists separator dest ns (Value.str s)).callbacks = ns.callbacks
    ∧ (∀ s2 : String,
        (split_lists separator dest (split_lists separator dest ns (Value.str s))
            (Value.str s2)).getattr dest
          = Value.list ((ns.getattr dest).pyOrEmptyList
              ++ stripSplit separator s ++ stripSplit separator s2))
    ∧ (split_lists ',' dest { slots := [], callbacks := Option.none }
        (Value.str "a, b ,,c")).getattr dest
        = Value.list ["a", "b", "c"] := by
  refine ⟨split_lists_getattr_dest separator dest s ns, ?_, rfl, ?_, ?_⟩
  · intro other hne
    simp [split_lists, Namespace.getattr, Namespace.setattr,
      getSlot_setSlot_other ns.slots dest other _ hne]
  · intro s2
    rw [split_lists_getattr_dest, split_lists_getattr_dest]
    simp [Value.pyOrEmptyList, List.append_assoc]
  · have hget : ({ slots := [], callbacks := Option.none } : Namespace).getattr dest
        = Value.none := rfl
    rw [split_lists_getattr_dest, hget]
    have hsplit : stripSplit ',' "a, b ,,c" = ["a", "b", "c"] := by decide
    simp [Value.pyOrEmptyList, hsplit]

/-- Claim C2 witness: the theorem applied at the flag value `"a, b ,,c"`,
separator `","` and an empty namespace, the hypothesis discharged by
evaluation. -/
theorem split_lists_appends_trimmed_segments_witness :
    (split_lists ',' "groups" { slots := [], callbacks := Option.none }
        (Value.str "a, b ,,c")).getattr "groups"
      = Value.list
          ((({ slots := [], callbacks := Option.none } : Namespace).getattr
              "groups").pyOrEmptyList ++ stripSplit ',' "a, b ,,c") :=
  (split_lists_appends_trimmed_segments ',' "groups" "a, b ,,c"
      { slots := [], callbacks := Option.none } (by decide)).1

/-- Claim C3: the environment default helper returns `None` when the
variable is missing, empty, or when every split segment trims to empty, and
otherwise returns the non-empty ordered sequence of whitespace-trimmed
non-empty segments; it never returns an empty sequence. -/
theorem from_splitted_env_unset_or_nonempty (env : String → Option String)
    (name : String) (separator : Char) :
    (env name = Option.none → from_splitted_env env name separator = Option.none)
    ∧ (env name = some "" → from_splitted_env env name separator = Option.none)
    ∧ (∀ v : String, env name = some v → stripSplit separator v = [] →
        from_splitted_env env name separator = Option.none)
    ∧ (∀ v : String, env name = some v → stripSplit separator v ≠ [] →
        from_splitted_env env name separator = some (stripSplit separator v))
    ∧ from_splitted_env env name separator ≠ some ([] : List String) := by
  refine ⟨?_, ?_, ?_, ?_, ?_⟩
  · intro h
    simp [from_splitted_env, h]
  · intro h
    simp [from_splitted_env, h]
  · intro v hv hsp
    by_cases hv0 : v = ""
    · simp [from_splitted_env, hv, hv0]
    · simp [from_splitted_env, hv, hv0, hsp]
  · intro v hv hne
    have hv0 : v ≠ "" := by
      intro h
      subst h
      exact hne rfl
    cases hsp : stripSplit separator v with
    | nil => exact absurd hsp hne
    | cons a l => simp [from_splitted_env, hv, hv0, hsp]
  · intro hcontra
    cases henv : env name with
    | none => simp [from_splitted_env, henv] at hcontra
    | some v =>
        by_cases hv0 : v = ""
        · simp [from_splitted_env, henv, hv0] at hcontra
        · cases hsp : stripSplit separator v with
          | nil => simp [from_splitted_env, henv, hv0, hsp] at hcontra
          | cons a l => simp [from_splitted_env, henv, hv0, hsp] at hcontra

/-- Claim C4: a `CallbackAction` firing leaves every destination slot of
the parse result unchanged; its only effect is to create the callbacks
list if absent and append the one record binding the handler to the
just-parsed value and the literal matched alias. -/
theorem callback_action_frame (cb : Handler) (ns : Namespace) (values : Value)
    (option_string : Option String) :
    (CallbackAction.call cb ns values option_string).slots = ns.slots
    ∧ (CallbackAction.call cb ns values option_string).callbacks
        = some (ns.callbacks.getD []
            ++ [{ callback := cb, values := values, option_string := option_string }]) :=
  ⟨rfl, rfl⟩

/-- Claim C5: applying an `Option` as a decorator returns the same instance
with its action registration parameter set to the callback action variant
and the handler bound as its callback; the flag aliases and every other
registration keyword are unchanged. -/
theorem option_decoration_returns_same_instance (o : CliOption) (func : Handler) :
    (o.call func).args = o.args
    ∧ (o.call func).kwargs.action = some ActionKind.callbackAction
    ∧ (o.call func).kwargs.callback = some func
    ∧ (o.call func).kwargs.dest = o.kwargs.dest
    ∧ (o.call func).kwargs.default = o.kwargs.default
    ∧ (o.call func).kwargs.const = o.kwargs.const
    ∧ (o.call func).kwargs.nargs = o.kwargs.nargs
    ∧ (o.call func).kwargs.metavar = o.kwargs.metavar
    ∧ (o.call func).kwargs.help = o.kwargs.help :=
  ⟨rfl, rfl, rfl, rfl, rfl, rfl, rfl, rfl, rfl⟩

/-- The child-registration loop registers exactly the children, in
insertion order. -/
theorem addAllToGroup_eq_map (l : List ASpec) :
    ASpec.addAllToGroup l = l.map ASpec.addToGroup := by
  induction l with
  | nil => rfl
  | cons s rest ih => simp [ASpec.addAllToGroup, ih]

/-- Claim C6: `add_to_parser` on an Argument Group creates a
mutually-exclusive scope carrying the group's `required` flag exactly when
the group is marked mutually exclusive, and otherwise a named display scope
with no enforcement; in both cases every child is registered into that
scope in insertion order (via its own `add_to_group`, so nested groups
compose); and `add_to_group` on a group behaves identically to
`add_to_parser`. -/
theorem argument_group_registration (g : ArgumentGroup) :
    (g.toSpec.addToParser
        = if g.is_mutually_exclusive
            then RegEntry.mutuallyExclusiveGroup g.required (g.options.map ASpec.addToGroup)
            else RegEntry.argumentGroup g.name (g.options.map ASpec.addToGroup))
    ∧ g.toSpec.addToGroup = g.toSpec.addToParser := by
  constructor
  · simp [ArgumentGroup.toSpec, ASpec.addToParser, addAllToGroup_eq_map]
  · simp [ArgumentGroup.toSpec, ASpec.addToParser, ASpec.addToGroup]

/-- Claim C7: a `split_lists` action invoked on a non-string value is a
no-op: the parse result, including the destination slot, is left entirely
unchanged. -/
theorem split_lists_non_string_noop (separator : Char) (dest : String)
    (ns : Namespace) (values : Value) (h : values.isStr = false) :
    split_lists separator dest ns values = ns := by
  cases values with
  | str s => simp [Value.isStr] at h
  | list l => rfl
  | int n => rfl
  | bool b => rfl
  | none => rfl

/-- Claim C7 witness: the theorem applied to the sentinel value `None` on a
namespace with an unset destination: nothing changes, in particular the
destination is not initialized to an empty sequence. -/
theorem split_lists_non_string_noop_witness :
    Value.isStr Value.none = false
    ∧ split_lists ',' "groups"
        { slots := [("dev", Value.bool true)], callbacks := Option.none } Value.none
      = { slots := [("dev", Value.bool true)], callbacks := Option.none } :=
  ⟨rfl, split_lists_non_string_noop ',' "groups"
    { slots := [("dev", Value.bool true)], callbacks := Option.none } Value.none rfl⟩

/-- Claim C8: the pep582 deferred handler first emits the derived shell
command and then raises the irrecoverable termination signal `exit 0`
(never a normal return), so the driver executes no deferred invocation
recorded after it. -/
theorem pep582_emits_then_terminates (values : Value) (option_string : Option String)
    (rest : List CallbackRecord) :
    runHandler Handler.pep582 values option_string
      = ([Effect.printPep582 values], HandlerOutcome.exit 0)
    ∧ runCallbacks
        ({ callback := Handler.pep582, values := values, option_string := option_string }
          :: rest)
      = [Effect.printPep582 values] :=
  ⟨rfl, rfl⟩

/-- The registration operations never change the option instance they are
applied to. -/
theorem foldl_applyOptOp_fst (ops : List OptOp) (p : CliOption × List RegEntry) :
    (ops.foldl applyOptOp p).1 = p.1 := by
  induction ops generalizing p with
  | nil => rfl
  | cons op rest ih =>
      have hstep : (rest.foldl applyOptOp (applyOptOp p op)).1 = (applyOptOp p op).1 :=
        ih (applyOptOp p op)
      have hop : (applyOptOp p op).1 = p.1 := by
        obtain ⟨o, out⟩ := p
        cases op <;> rfl
      rw [List.foldl_cons, hstep, hop]

/-- Claim C9: once an `Option` has been wrapped as a callback by the
decorator form, no further operation performed on it (the module registers
it against parsers and group scopes, both pure reads of `args` and
`kwargs`) changes its bound handler or its action parameter. -/
theorem callback_binding_stable_after_decoration (o : CliOption) (func : Handler)
    (ops : List OptOp) :
    ((ops.foldl applyOptOp (o.call func, [])).1.kwargs.action
        = some ActionKind.callbackAction)
    ∧ ((ops.foldl applyOptOp (o.call func, [])).1.kwargs.callback = some func) := by
  rw [foldl_applyOptOp_fst ops (o.call func, [])]
  exact ⟨rfl, rfl⟩

/-- Claim C10: `ArgumentGroup.add_argument` called with a prebuilt
specification object as first positional argument appends that exact object
to the group's children; every additional positional or keyword argument of
the same call is silently discarded, and no error is raised (the operation
is total). -/
theorem add_argument_prebuilt_option_appended (g : ArgumentGroup) (s : ASpec)
    (rest : List AddArg) (kwargs : Kwargs) :
    (g.addArgument (AddArg.spec s :: rest) kwargs).options = g.options ++ [s]
    ∧ (g.addArgument (AddArg.spec s :: rest) kwargs).name = g.name
    ∧ (g.addArgument (AddArg.spec s :: rest) kwargs).required = g.required
    ∧ (g.addArgument (AddArg.spec s :: rest) kwargs).is_mutually_exclusive
        = g.is_mutually_exclusive
    ∧ (∀ (rest2 : List AddArg) (kwargs2 : Kwargs),
        g.addArgument (AddArg.spec s :: rest) kwargs
          = g.addArgument (AddArg.spec s :: rest2) kwargs2) :=
  ⟨rfl, rfl, rfl, rfl, fun _ _ => rfl⟩
